import Mathlib

/-!
# Verification of the Lunara recurrence / reminder engine

Shallow embedding of the temporal core of the Lunara repository:

* `src/services/timeService.ts` — `getNextOccurrence`, `calculateRecurringDate`,
  `calculateNextLunarDate`, `shouldUpdateRecurringEvent`;
* `src/unnamed/part_000` (storage service) — `cleanupPastEvents`;
* `src/api/cron.ts` (first handler) — the cleanup / reminder-window /
  digest-aggregation loop.

Modelling conventions:

* Instants are modelled at minute granularity.  A luxon `DateTime` is embedded
  as a `CivilDT` (proleptic-Gregorian civil wall-clock date-time); time zones
  are modelled as fixed UTC offsets, under which instant comparison of two
  date-times in the same zone coincides with comparison of their civil
  timestamps (`toMin`), so zone offsets cancel everywhere the source compares
  instants.  Daylight-saving transitions are outside the model; the spec's
  concrete test vectors avoid them.
* Luxon's calendar-aware `plus` is embedded field by field: `plus({days})`
  keeps the wall-clock time and advances the calendar date; `plus({months})` /
  `plus({years})` shift the calendar month and clamp the day-of-month to the
  target month's length; `plus({hours})` adds exact 60-minute periods.
* The `lunar-javascript` conversion `Lunar.fromYmd(...).getSolar()` is a
  third-party library, not repository code; it is modelled as an explicit
  conversion parameter `conv : Nat → Nat → Nat → Option (Nat × Nat × Nat)`
  (solar year/month/day for a lunar (month, day) in a trial year), where
  `Option.none` models the exception the source catches.
* ISO strings that fail to parse (`DateTime.isValid = false`) are modelled by
  `Option.none` timestamps; luxon comparisons against an invalid date-time are
  always `false`, which the embedding mirrors.
-/

set_option maxRecDepth 100000
set_option maxHeartbeats 4000000

namespace Lunara

/-! ## Civil calendar model -/

/-- A civil (wall-clock) date-time at minute precision, as carried by a luxon
`DateTime` in a fixed-offset zone. -/
structure CivilDT where
  year : Nat
  month : Nat
  day : Nat
  hour : Nat
  minute : Nat
deriving DecidableEq, Repr

/-- Gregorian leap-year rule. -/
def isLeap (y : Nat) : Bool :=
  (y % 4 == 0 && y % 100 != 0) || (y % 400 == 0)

/-- Length of month `m` of year `y` (months are 1-based; out-of-range months
never arise from valid dates and default to 30). -/
def daysInMonth (y m : Nat) : Nat :=
  match m with
  | 1 => 31
  | 2 => if isLeap y then 29 else 28
  | 3 => 31
  | 4 => 30
  | 5 => 31
  | 6 => 30
  | 7 => 31
  | 8 => 31
  | 9 => 30
  | 10 => 31
  | 11 => 30
  | 12 => 31
  | _ => 30

/-- Number of leap years strictly before year `y` (proleptic Gregorian,
counting from year 0). -/
def leapsBefore (y : Nat) : Nat :=
  (y + 3) / 4 + (y + 399) / 400 - (y + 99) / 100

/-- Days of year `y` that precede the first day of month `m`. -/
def daysBeforeMonthInYear (y m : Nat) : Nat :=
  match m with
  | 1 => 0
  | 2 => 31
  | 3 => if isLeap y then 60 else 59
  | 4 => if isLeap y then 91 else 90
  | 5 => if isLeap y then 121 else 120
  | 6 => if isLeap y then 152 else 151
  | 7 => if isLeap y then 182 else 181
  | 8 => if isLeap y then 213 else 212
  | 9 => if isLeap y then 244 else 243
  | 10 => if isLeap y then 274 else 273
  | 11 => if isLeap y then 305 else 304
  | 12 => if isLeap y then 335 else 334
  | _ => 0

/-- Day count from 0000-01-01 to the first day of month `m` of year `y`. -/
def monthStart (y m : Nat) : Nat :=
  365 * y + leapsBefore y + daysBeforeMonthInYear y m

/-- Day number of a civil date (days since 0000-01-01). -/
def dayNumber (d : CivilDT) : Nat :=
  monthStart d.year d.month + (d.day - 1)

/-- Civil timestamp in minutes; instant comparison of same-offset luxon
date-times is comparison of `toMin`. -/
def toMin (d : CivilDT) : Nat :=
  dayNumber d * 1440 + d.hour * 60 + d.minute

/-- A structurally valid calendar date (what `DateTime.fromISO` produces when
`isValid` holds); the hour/minute fields need no bound for any result below. -/
def ValidDT (d : CivilDT) : Prop :=
  1 ≤ d.month ∧ d.month ≤ 12 ∧ 1 ≤ d.day ∧ d.day ≤ daysInMonth d.year d.month

instance (d : CivilDT) : Decidable (ValidDT d) := by
  unfold ValidDT; infer_instance

/-! ## Calendar stepping operations (luxon `plus`/`minus`) -/

/-- Advance one calendar day (wall clock kept). -/
def nextDay (d : CivilDT) : CivilDT :=
  if d.day < daysInMonth d.year d.month then { d with day := d.day + 1 }
  else if d.month < 12 then { d with month := d.month + 1, day := 1 }
  else { d with year := d.year + 1, month := 1, day := 1 }

/-- Step one calendar day backwards. -/
def prevDay (d : CivilDT) : CivilDT :=
  if 1 < d.day then { d with day := d.day - 1 }
  else if 1 < d.month then
    { d with month := d.month - 1, day := daysInMonth d.year (d.month - 1) }
  else { d with year := d.year - 1, month := 12, day := 31 }

/-- `plus({days: n})` for `n ≥ 0`. -/
def addDays (d : CivilDT) : Nat → CivilDT
  | 0 => d
  | n + 1 => addDays (nextDay d) n

/-- `minus({days: n})`. -/
def subDays (d : CivilDT) : Nat → CivilDT
  | 0 => d
  | n + 1 => subDays (prevDay d) n

/-- `plus({months: n})` for `n ≥ 0`: shift the calendar month, clamping the
day-of-month to the target month's length (luxon semantics). -/
def addMonths (d : CivilDT) (n : Nat) : CivilDT :=
  let t := (d.month - 1) + n
  let y := d.year + t / 12
  let m := t % 12 + 1
  { d with year := y, month := m, day := min d.day (daysInMonth y m) }

/-- `minus({months: n})` (year truncates at 0; never reached from the inputs
considered here). -/
def subMonths (d : CivilDT) (n : Nat) : CivilDT :=
  let t := 12 * d.year + (d.month - 1) - n
  let y := t / 12
  let m := t % 12 + 1
  { d with year := y, month := m, day := min d.day (daysInMonth y m) }

/-- `plus({hours: n})` for `n ≥ 0`. -/
def addHours (d : CivilDT) (n : Nat) : CivilDT :=
  let t := d.hour + n
  { addDays d (t / 24) with hour := t % 24 }

/-- `minus({hours: n})`. -/
def subHours (d : CivilDT) (n : Nat) : CivilDT :=
  let q := (n + 23 - d.hour) / 24
  { subDays d q with hour := d.hour + 24 * q - n }

/-- Signed day addition, as luxon `plus` with a possibly negative amount. -/
def addDaysZ (d : CivilDT) (n : Int) : CivilDT :=
  if 0 ≤ n then addDays d n.toNat else subDays d (-n).toNat

/-- Signed month addition. -/
def addMonthsZ (d : CivilDT) (n : Int) : CivilDT :=
  if 0 ≤ n then addMonths d n.toNat else subMonths d (-n).toNat

/-- Signed hour addition. -/
def addHoursZ (d : CivilDT) (n : Int) : CivilDT :=
  if 0 ≤ n then addHours d n.toNat else subHours d (-n).toNat

/-! ## Data model (`src/types.ts`) -/

/-- `RecurrenceType` (`src/types.ts`).  `none` is the no-recurrence tag. -/
inductive RuleType where
  | none
  | daily
  | weekly
  | monthly
  | yearlySolar
  | yearlyLunar
  | custom
deriving DecidableEq, Repr

/-- `lunarData` payload of a `yearly_lunar` rule. -/
structure LunarData where
  month : Nat
  day : Nat
deriving DecidableEq, Repr

/-- Unit of a `custom` rule. -/
inductive RuleUnit where
  | hour
  | day
  | week
  | month
  | year
deriving DecidableEq, Repr

/-- `RecurrenceRule` (`src/types.ts`): a type tag plus optional payload fields.
`interval` is an `Int` because the source never validates its sign; JavaScript
truthiness (`rule.interval && rule.unit`) treats a missing or zero interval as
absent. -/
structure RecurrenceRule where
  type : RuleType
  lunarData : Option LunarData := Option.none
  interval : Option Int := Option.none
  unit : Option RuleUnit := Option.none
deriving DecidableEq, Repr

/-- `AppEvent` (`src/types.ts`), restricted to the fields the temporal core
reads.  `startAt` is the parsed anchor instant (the field the newer schema
renames to `nextAlertAt`); parsing is assumed to have succeeded for events
flowing through `timeService`. -/
structure AppEvent where
  id : String
  title : String
  startAt : CivilDT
  recurrenceRule : Option RecurrenceRule
  reminders : List Nat
deriving DecidableEq, Repr

/-- A row of the `events` table as the storage service and the cron handler
see it: `nextAlertAt` is `Option.none` when the stored ISO string does not
parse to a valid instant (`DateTime.isValid` false), `reminders` is
`Option.none` when the column is null (JS `event.reminders || [0]`). -/
structure StoredEvent where
  id : String
  title : String
  nextAlertAt : Option CivilDT
  recurrenceRule : Option RecurrenceRule
  reminders : Option (List Nat)
  deviceId : Option String
deriving DecidableEq, Repr

/-- Lunar-to-solar conversion oracle standing for the external
`lunar-javascript` library: given a trial solar year and a lunar (month, day),
produce the solar (year, month, day), or `Option.none` for the exception
thrown when the lunar date does not exist in that year. -/
abbrev LunarConv := Nat → Nat → Nat → Option (Nat × Nat × Nat)

/-! ## `src/services/timeService.ts` -/

/-- One iteration body of the solar stepping loop in `calculateRecurringDate`
(`timeService.ts:67-97`): the per-rule `plus` step, or `Option.none` for the
branches that exit the loop returning the original `start` (the `default`
case, and a `custom` rule whose `interval`/`unit` are JS-falsy). -/
def solarStep (rule : RecurrenceRule) (c : CivilDT) : Option CivilDT :=
  match rule.type with
  | RuleType.daily => some (addDaysZ c 1)
  | RuleType.weekly => some (addDaysZ c 7)
  | RuleType.monthly => some (addMonthsZ c 1)
  | RuleType.yearlySolar => some (addMonthsZ c 12)
  | RuleType.custom =>
    match rule.interval, rule.unit with
    | some i, some u =>
      if i ≠ 0 then
        some (match u with
          | RuleUnit.hour => addHoursZ c i
          | RuleUnit.day => addDaysZ c i
          | RuleUnit.week => addDaysZ c (7 * i)
          | RuleUnit.month => addMonthsZ c i
          | RuleUnit.year => addMonthsZ c (12 * i))
      else Option.none
    | _, _ => Option.none
  | _ => Option.none

/-- The `while (currentCandidate < now && safetyCounter < 2000)` loop of
`calculateRecurringDate` (`timeService.ts:64-98`), with the remaining fuel
explicit.  A `Option.none` step models the `return start` exits inside the
loop body. -/
def solarLoop (rule : RecurrenceRule) (start now : CivilDT) :
    Nat → CivilDT → CivilDT
  | 0, c => c
  | fuel + 1, c =>
    if toMin c < toMin now then
      match solarStep rule c with
      | some c' => solarLoop rule start now fuel c'
      | Option.none => start
    else c

/-- `calculateNextLunarDate`'s trial loop (`timeService.ts:107-128`), over the
list of year offsets still to try.  The `try/catch` around `Lunar.fromYmd` is
the `Option` returned by `conv`; a caught exception falls through to the next
trial year. -/
def lunarScan (conv : LunarConv) (ld : LunarData) (originalStart now : CivilDT)
    (searchYear : Nat) : List Nat → CivilDT
  | [] => originalStart
  | i :: rest =>
    match conv (searchYear + i) ld.month ld.day with
    | some (sy, sm, sd) =>
      let candidate : CivilDT :=
        { year := sy, month := sm, day := sd,
          hour := originalStart.hour, minute := originalStart.minute }
      if toMin now < toMin candidate then candidate
      else lunarScan conv ld originalStart now searchYear rest
    | Option.none => lunarScan conv ld originalStart now searchYear rest

/-- `calculateNextLunarDate` (`timeService.ts:103-130`): try the reference
year and the next two, keep the first candidate strictly after `now`, else
return the original start. -/
def calculateNextLunarDate (conv : LunarConv) (ld : LunarData)
    (originalStart now : CivilDT) : CivilDT :=
  lunarScan conv ld originalStart now now.year (List.range 3)

/-- `calculateRecurringDate` (`timeService.ts:54-101`). -/
def calculateRecurringDate (conv : LunarConv) (start : CivilDT)
    (rule : RecurrenceRule) (now : CivilDT) : CivilDT :=
  match rule.type, rule.lunarData with
  | RuleType.yearlyLunar, some ld => calculateNextLunarDate conv ld start now
  | _, _ => solarLoop rule start now 2000 start

/-- `getNextOccurrence` (`timeService.ts:9-52`), restricted to the resolved
instant (the UI strings of `NextOccurrence` are not part of the temporal
core). -/
def getNextOccurrence (conv : LunarConv) (event : AppEvent) (now : CivilDT) :
    CivilDT :=
  let startDt := event.startAt
  match event.recurrenceRule with
  | Option.none => startDt
  | some rule =>
    if rule.type = RuleType.none then startDt
    else if toMin startDt < toMin now then
      calculateRecurringDate conv startDt rule now
    else startDt

/-- `shouldUpdateRecurringEvent` (`timeService.ts:159-173`): the rollover
scheduler.  The source compares ISO strings (`nextOccurrence.isoString !==
event.startAt`); with anchors stored in canonical serialization this is
equality of the parsed instants, which is how it is embedded. -/
def shouldUpdateRecurringEvent (conv : LunarConv) (event : AppEvent)
    (now : CivilDT) : Option CivilDT :=
  match event.recurrenceRule with
  | Option.none => Option.none
  | some rule =>
    if rule.type = RuleType.none then Option.none
    else if toMin event.startAt + 1 < toMin now then
      let next := getNextOccurrence conv event now
      if next ≠ event.startAt then some next else Option.none
    else Option.none

/-! ## Expiry reaping (`src/unnamed/part_000` and `src/api/cron.ts`) -/

/-- `!e.recurrenceRule || e.recurrenceRule.type === 'none'`. -/
def isOneTime (rule : Option RecurrenceRule) : Bool :=
  match rule with
  | Option.none => true
  | some r => r.type = RuleType.none

/-- The common expiry test both drivers instantiate: a one-time event whose
(parsed) `nextAlertAt` plus `grace` minutes is before the reference instant.
An unparseable timestamp (luxon invalid; all comparisons false) never
qualifies. -/
def reapQualifies (grace : Nat) (now : CivilDT) (e : StoredEvent) : Bool :=
  isOneTime e.recurrenceRule &&
    match e.nextAlertAt with
    | some t => decide (toMin t + grace < toMin now)
    | Option.none => false

/-- The generalized `ExpiryReaper`: ids of events passing `reapQualifies`, in
input order (spec §4.4 takes the grace as a parameter; the two drivers below
instantiate it at 1 and 120 minutes). -/
def reap (grace : Nat) (now : CivilDT) (events : List StoredEvent) :
    List String :=
  (events.filter (reapQualifies grace now)).map (fun e => e.id)

/-- The per-event test of `cleanupPastEvents` (`src/unnamed/part_000:73-87`):
only rule-`none` events, skip invalid timestamps, delete once
`eventTime.plus({minutes: 1}) < now`. -/
def cleanupQualifies (now : CivilDT) (e : StoredEvent) : Bool :=
  isOneTime e.recurrenceRule &&
    match e.nextAlertAt with
    | some t => decide (toMin t + 1 < toMin now)
    | Option.none => false

/-- `cleanupPastEvents` (`src/unnamed/part_000:66-98`): the ids pushed onto
`toDelete` by the `forEach`, in input order. -/
def cleanupPastEvents (now : CivilDT) (events : List StoredEvent) :
    List String :=
  (events.filter (cleanupQualifies now)).map (fun e => e.id)

/-- The cron handler's cleanup test (`src/api/cron.ts:54-57`): one-time and
`nextAlertUtc < nowUtc.minus({hours: 2})`.  An invalid parse compares false. -/
def cronShouldDelete (nowUtc : CivilDT) (e : StoredEvent) : Bool :=
  isOneTime e.recurrenceRule &&
    match e.nextAlertAt with
    | some t => decide (toMin t < toMin nowUtc - 120)
    | Option.none => false

/-! ## Reminder matching and digest aggregation (`src/api/cron.ts:44-117`) -/

/-- A formatted alert line (`cron.ts:79-91`).  The four string templates are
pairwise non-overlapping and injective in their arguments, so string equality
of formatted labels (the `includes` dedup test) is equality of this
abstraction. -/
inductive Label where
  | atTime (hour minute : Nat) (title : String)
  | dayBefore (month day : Nat) (title : String)
  | inDays (days : Nat) (title : String)
  | reminder (hour minute : Nat) (title : String)
deriving DecidableEq, Repr

/-- Label selection by offset (`cron.ts:82-91`); `displayTime` is the event's
`alertBaseTime`.  `Math.round(minutesBefore / 1440)` is `(m + 720) / 1440` on
naturals. -/
def formatLabel (alertBase : CivilDT) (title : String) (minutesBefore : Nat) :
    Label :=
  if minutesBefore = 0 then Label.atTime alertBase.hour alertBase.minute title
  else if minutesBefore = 1440 then
    Label.dayBefore alertBase.month alertBase.day title
  else if 1440 < minutesBefore then
    Label.inDays ((minutesBefore + 720) / 1440) title
  else Label.reminder alertBase.hour alertBase.minute title

/-- The window test (`cron.ts:72-75`): `alertTime = alertBaseTime - offset`
lands in `[targetStart, targetEnd]`, both bounds inclusive in the source
(`targetEnd` is luxon's `endOf('day')`, the last representable instant of the
day, so the test is the half-open day window `[targetStart, targetEnd + 1)`
over instants). -/
def offsetDue (S E : Int) (alertBase : CivilDT) (minutesBefore : Nat) : Bool :=
  let a : Int := (toMin alertBase : Int) - minutesBefore
  S ≤ a && a ≤ E

/-- `event.reminders || [0]` (`cron.ts:68`): a null column defaults to `[0]`;
an empty array is truthy and stays empty. -/
def remindersOf (e : StoredEvent) : List Nat :=
  match e.reminders with
  | Option.none => [0]
  | some l => l

/-- Offsets of `e` due in the window, in order (`cron.ts:70-75`). -/
def dueOffsets (S E : Int) (base : CivilDT) (rems : List Nat) : List Nat :=
  rems.filter (offsetDue S E base)

/-- The labels one event contributes to its device's list, in reminder order,
before the cross-event dedup (`cron.ts:70-92`).  An event whose
`next_alert_at` does not parse contributes nothing (invalid comparisons are
false). -/
def eventOffsetsLabels (S E : Int) (e : StoredEvent) : List Label :=
  match e.nextAlertAt with
  | Option.none => []
  | some base =>
    (remindersOf e).filterMap fun m =>
      if offsetDue S E base m then some (formatLabel base e.title m)
      else Option.none

/-- `if (!deviceAlerts[id].includes(label)) push(label)` (`cron.ts:94-96`). -/
def pushDedup (acc : List Label) (lab : Label) : List Label :=
  if lab ∈ acc then acc else acc ++ [lab]

/-- One iteration of the main event loop (`cron.ts:49-99`): mark expired
one-time events for deletion (skipping their notification check), skip events
without a device, and merge the event's due labels into its device's list with
the `includes` dedup. -/
def processEvent (S E : Int) (nowUtc : CivilDT)
    (acc : (String → List Label) × List String) (e : StoredEvent) :
    (String → List Label) × List String :=
  if cronShouldDelete nowUtc e then (acc.1, acc.2 ++ [e.id])
  else
    match e.deviceId with
    | Option.none => acc
    | some dev =>
      (fun d =>
        if d = dev then (eventOffsetsLabels S E e).foldl pushDedup (acc.1 d)
        else acc.1 d,
       acc.2)

/-- The whole scan (`cron.ts:44-99`): per-device alert lists and the ids to
delete. -/
def runCron (S E : Int) (nowUtc : CivilDT) (events : List StoredEvent) :
    (String → List Label) × List String :=
  events.foldl (processEvent S E nowUtc) (fun _ => [], [])

/-- The digest payload built per device (`cron.ts:116-117`): a title carrying
the alert count (with its plural marker), the first four alert lines, and the
`...and N more` overflow line exactly when more than four alerts exist. -/
structure Digest where
  titleCount : Nat
  titlePlural : Bool
  preview : List Label
  overflow : Option Nat
deriving DecidableEq, Repr

/-- `cron.ts:116-117`. -/
def mkDigest (alerts : List Label) : Digest :=
  { titleCount := alerts.length
    titlePlural := 1 < alerts.length
    preview := alerts.take 4
    overflow := if 4 < alerts.length then some (alerts.length - 4)
                else Option.none }

/-! ## Auxiliary notions used by the statements -/

/-- Day count to the start of absolute month `M` (`M = 12 * year + month - 1`);
the bridge along which month-stepping arithmetic is reasoned about. -/
def msd (M : Nat) : Nat :=
  monthStart (M / 12) (M % 12 + 1)

/-- The step function of the solar loop, defaulting to the identity on the
exit branches. -/
def stepF (rule : RecurrenceRule) (c : CivilDT) : CivilDT :=
  (solarStep rule c).getD c

/-- `k`-fold application of the per-rule period step: the candidate after `k`
additions of one period to the anchor. -/
def iterStep (rule : RecurrenceRule) : Nat → CivilDT → CivilDT
  | 0, c => c
  | n + 1, c => iterStep rule n (stepF rule c)

/-- The rule's switch arm never exits the loop early. -/
def StepTotal (rule : RecurrenceRule) : Prop :=
  ∀ c, (solarStep rule c).isSome

/-- Every step the rule takes moves a valid candidate strictly forward and
keeps it valid. -/
def StepsForward (rule : RecurrenceRule) : Prop :=
  ∀ c, ValidDT c → ∀ c', solarStep rule c = some c' →
    toMin c < toMin c' ∧ ValidDT c'

/-- The rules claim C3 ranges over: the four fixed solar periods, and a
custom rule with a positive interval and a unit. -/
def SolarStepping (rule : RecurrenceRule) : Prop :=
  rule.type = RuleType.daily ∨ rule.type = RuleType.weekly ∨
  rule.type = RuleType.monthly ∨ rule.type = RuleType.yearlySolar ∨
  (rule.type = RuleType.custom ∧ rule.unit.isSome = true ∧
    ∃ i, rule.interval = some i ∧ 0 < i)

/-- The candidate the `i`-th trial year of `calculateNextLunarDate` produces,
if the lunar date exists in that year. -/
def lunarTrial (conv : LunarConv) (ld : LunarData) (originalStart : CivilDT)
    (searchYear i : Nat) : Option CivilDT :=
  (conv (searchYear + i) ld.month ld.day).map fun x =>
    { year := x.1, month := x.2.1, day := x.2.2,
      hour := originalStart.hour, minute := originalStart.minute }

/-! ## Concrete values for witnesses and counterexamples -/

/-- A lunar conversion oracle that never succeeds (irrelevant for solar
rules). -/
def convNone : LunarConv := fun _ _ _ => Option.none

/-- A conversion oracle mapping every trial year to March 15 of that year. -/
def convMar15 : LunarConv := fun y _ _ => some (y, 3, 15)

def dailyRule : RecurrenceRule := { type := RuleType.daily }

def custom3Day : RecurrenceRule :=
  { type := RuleType.custom, interval := some 3, unit := some RuleUnit.day }

def customNeg1Day : RecurrenceRule :=
  { type := RuleType.custom, interval := some (-1), unit := some RuleUnit.day }

def custom0Day : RecurrenceRule :=
  { type := RuleType.custom, interval := some 0, unit := some RuleUnit.day }

/-- A daily event whose anchor lies about eleven years before the reference
instant used with it, so that 2000 daily steps cannot reach the reference. -/
def farPastDaily : AppEvent :=
  { id := "d", title := "t", startAt := ⟨1, 1, 1, 0, 0⟩,
    recurrenceRule := some dailyRule, reminders := [] }

/-- An event with a negative custom interval. -/
def negIntervalEvent : AppEvent :=
  { id := "n", title := "t", startAt := ⟨10, 1, 1, 9, 0⟩,
    recurrenceRule := some customNeg1Day, reminders := [] }

/-- A well-behaved daily event anchored 2024-01-01T09:00. -/
def dailyJanEvent : AppEvent :=
  { id := "w", title := "t", startAt := ⟨2024, 1, 1, 9, 0⟩,
    recurrenceRule := some dailyRule, reminders := [] }

/-- A stored one-time event with a parseable timestamp. -/
def okStoredEvent : StoredEvent :=
  { id := "ok", title := "a", nextAlertAt := some ⟨2024, 1, 1, 9, 0⟩,
    recurrenceRule := Option.none, reminders := Option.none,
    deviceId := Option.none }

/-- A stored one-time event whose timestamp string does not parse. -/
def badStoredEvent : StoredEvent :=
  { id := "bad", title := "b", nextAlertAt := Option.none,
    recurrenceRule := Option.none, reminders := Option.none,
    deviceId := Option.none }

/-- A stored recurring event owned by device "dev" with an at-time
reminder. -/
def devStoredEvent : StoredEvent :=
  { id := "e1", title := "T", nextAlertAt := some ⟨2024, 1, 2, 9, 0⟩,
    recurrenceRule := some dailyRule, reminders := some [0],
    deviceId := some "dev" }

/-! ## Calendar arithmetic lemmas -/

theorem daysInMonth_ge (y m : Nat) : 28 ≤ daysInMonth y m := by
  unfold daysInMonth
  split
  all_goals first
    | omega
    | (split <;> omega)

theorem daysInMonth_le (y m : Nat) : daysInMonth y m ≤ 31 := by
  unfold daysInMonth
  split
  all_goals first
    | omega
    | (split <;> omega)

theorem isLeap_eq_true_iff (y : Nat) :
    isLeap y = true ↔ ((y % 4 = 0 ∧ ¬ y % 100 = 0) ∨ y % 400 = 0) := by
  unfold isLeap
  simp [Bool.or_eq_true, Bool.and_eq_true]

theorem isLeap_eq_false_iff (y : Nat) :
    isLeap y = false ↔ ((¬ y % 4 = 0 ∨ y % 100 = 0) ∧ ¬ y % 400 = 0) := by
  rw [← Bool.not_eq_true, isLeap_eq_true_iff]
  tauto

theorem leapsBefore_succ (y : Nat) :
    leapsBefore (y + 1) = leapsBefore y + (if isLeap y then 1 else 0) := by
  have s4 : (y + 1 + 3) / 4 = (y + 3) / 4 + (if y % 4 = 0 then 1 else 0) := by
    by_cases h : y % 4 = 0 <;> simp [h] <;> omega
  have s100 : (y + 1 + 99) / 100 =
      (y + 99) / 100 + (if y % 100 = 0 then 1 else 0) := by
    by_cases h : y % 100 = 0 <;> simp [h] <;> omega
  have s400 : (y + 1 + 399) / 400 =
      (y + 399) / 400 + (if y % 400 = 0 then 1 else 0) := by
    by_cases h : y % 400 = 0 <;> simp [h] <;> omega
  have mono : (y + 99) / 100 ≤ (y + 3) / 4 := by omega
  have hIf : (if isLeap y then (1 : Nat) else 0) =
      (if ((y % 4 = 0 ∧ ¬ y % 100 = 0) ∨ y % 400 = 0) then 1 else 0) := by
    by_cases hP : ((y % 4 = 0 ∧ ¬ y % 100 = 0) ∨ y % 400 = 0)
    · rw [if_pos hP, if_pos]
      exact (isLeap_eq_true_iff y).mpr hP
    · rw [if_neg hP, if_neg]
      intro hc
      exact hP ((isLeap_eq_true_iff y).mp hc)
  unfold leapsBefore
  rw [hIf, s4, s100, s400]
  by_cases h4 : y % 4 = 0 <;> by_cases h100 : y % 100 = 0 <;>
    by_cases h400 : y % 400 = 0 <;>
    simp [h4, h100, h400] <;>
    omega

theorem msd_succ (M : Nat) :
    msd (M + 1) = msd M + daysInMonth (M / 12) (M % 12 + 1) := by
  obtain ⟨y, r, hr, hM⟩ : ∃ y r, r < 12 ∧ M = 12 * y + r :=
    ⟨M / 12, M % 12, Nat.mod_lt _ (by omega), by omega⟩
  subst hM
  have hy : (12 * y + r) / 12 = y := by omega
  have hr' : (12 * y + r) % 12 = r := by omega
  rcases Nat.lt_or_ge r 11 with h11 | h11
  · have hy1 : (12 * y + r + 1) / 12 = y := by omega
    have hr1 : (12 * y + r + 1) % 12 = r + 1 := by omega
    unfold msd
    rw [hy, hr', hy1, hr1]
    unfold monthStart
    have hstep : daysBeforeMonthInYear y (r + 1 + 1) =
        daysBeforeMonthInYear y (r + 1) + daysInMonth y (r + 1) := by
      interval_cases r <;>
        (cases hL : isLeap y <;>
          simp [daysBeforeMonthInYear, daysInMonth, hL])
    omega
  · have hr11 : r = 11 := by omega
    subst hr11
    have hy1 : (12 * y + 11 + 1) / 12 = y + 1 := by omega
    have hr1 : (12 * y + 11 + 1) % 12 = 0 := by omega
    unfold msd
    rw [hy, hr', hy1, hr1]
    unfold monthStart
    have hL := leapsBefore_succ y
    cases hiL : isLeap y <;> rw [hiL] at hL <;>
      simp [daysBeforeMonthInYear, daysInMonth, hiL] at hL ⊢ <;> omega

theorem msd_add (M k : Nat) : msd M + 28 * k ≤ msd (M + k) := by
  induction k with
  | zero => simp
  | succ n ih =>
    have hs := msd_succ (M + n)
    have hd := daysInMonth_ge ((M + n) / 12) ((M + n) % 12 + 1)
    have : M + (n + 1) = (M + n) + 1 := by omega
    rw [this, hs]
    omega

theorem monthStart_eq_msd (y m : Nat) (h1 : 1 ≤ m) (h2 : m ≤ 12) :
    monthStart y m = msd (12 * y + (m - 1)) := by
  unfold msd
  have hdiv : (12 * y + (m - 1)) / 12 = y := by omega
  have hmod : (12 * y + (m - 1)) % 12 = m - 1 := by omega
  rw [hdiv, hmod]
  congr 1
  omega

/-! ## Stepping lemmas: each positive period addition moves a valid date
strictly forward and keeps it valid -/

theorem nextDay_spec (d : CivilDT) (h : ValidDT d) :
    dayNumber (nextDay d) = dayNumber d + 1 ∧ ValidDT (nextDay d) ∧
      (nextDay d).hour = d.hour ∧ (nextDay d).minute = d.minute := by
  obtain ⟨hm1, hm2, hd1, hd2⟩ := h
  unfold nextDay
  by_cases hlt : d.day < daysInMonth d.year d.month
  · rw [if_pos hlt]
    refine ⟨?_, ?_, rfl, rfl⟩
    · simp only [dayNumber]
      omega
    · simp only [ValidDT]
      exact ⟨hm1, hm2, by omega, hlt⟩
  · rw [if_neg hlt]
    have hde : d.day = daysInMonth d.year d.month := by omega
    by_cases hm12 : d.month < 12
    · rw [if_pos hm12]
      have e1 : monthStart d.year d.month =
          msd (12 * d.year + (d.month - 1)) := monthStart_eq_msd _ _ hm1 hm2
      have e2 : monthStart d.year (d.month + 1) =
          msd (12 * d.year + (d.month + 1 - 1)) :=
        monthStart_eq_msd _ _ (by omega) (by omega)
      have e3 : 12 * d.year + (d.month + 1 - 1) =
          (12 * d.year + (d.month - 1)) + 1 := by omega
      have e4 := msd_succ (12 * d.year + (d.month - 1))
      have e5 : (12 * d.year + (d.month - 1)) / 12 = d.year := by omega
      have e6 : (12 * d.year + (d.month - 1)) % 12 + 1 = d.month := by omega
      rw [e5] at e4
      rw [show (12 * d.year + (d.month - 1)) % 12 + 1 = d.month from e6] at e4
      refine ⟨?_, ?_, rfl, rfl⟩
      · simp only [dayNumber]
        rw [e1, e2, e3, e4]
        omega
      · simp only [ValidDT]
        exact ⟨by omega, by omega, by omega,
          le_trans (by omega) (daysInMonth_ge _ _)⟩
    · rw [if_neg hm12]
      have hm12' : d.month = 12 := by omega
      have e1 : monthStart d.year 12 =
          msd (12 * d.year + 11) := by
        have := monthStart_eq_msd d.year 12 (by omega) (by omega)
        simpa using this
      have e2 : monthStart (d.year + 1) 1 =
          msd (12 * (d.year + 1) + 0) := by
        have := monthStart_eq_msd (d.year + 1) 1 (by omega) (by omega)
        simpa using this
      have e4 := msd_succ (12 * d.year + 11)
      have e5 : (12 * d.year + 11) / 12 = d.year := by omega
      have e6 : (12 * d.year + 11) % 12 + 1 = 12 := by omega
      rw [e5, e6] at e4
      have e7 : 12 * (d.year + 1) + 0 = (12 * d.year + 11) + 1 := by omega
      have hdim12 : daysInMonth d.year 12 = 31 := rfl
      refine ⟨?_, ?_, rfl, rfl⟩
      · simp only [dayNumber]
        rw [e2, e7, e4, ← e1]
        rw [hm12'] at hde ⊢
        rw [hdim12] at hde
        omega
      · simp only [ValidDT]
        exact ⟨by omega, by omega, by omega,
          le_trans (by omega) (daysInMonth_ge _ _)⟩

theorem addDays_spec (n : Nat) :
    ∀ d : CivilDT, ValidDT d →
      dayNumber (addDays d n) = dayNumber d + n ∧ ValidDT (addDays d n) ∧
        (addDays d n).hour = d.hour ∧ (addDays d n).minute = d.minute := by
  induction n with
  | zero => intro d h; exact ⟨rfl, h, rfl, rfl⟩
  | succ k ih =>
    intro d h
    obtain ⟨h1, h2, h3, h4⟩ := nextDay_spec d h
    obtain ⟨g1, g2, g3, g4⟩ := ih (nextDay d) h2
    refine ⟨?_, g2, ?_, ?_⟩
    · show dayNumber (addDays (nextDay d) k) = dayNumber d + (k + 1)
      omega
    · show (addDays (nextDay d) k).hour = d.hour
      omega
    · show (addDays (nextDay d) k).minute = d.minute
      omega

theorem toMin_addDays (d : CivilDT) (n : Nat) (h : ValidDT d) :
    toMin (addDays d n) = toMin d + 1440 * n := by
  obtain ⟨h1, _, h3, h4⟩ := addDays_spec n d h
  simp only [toMin, h1, h3, h4]
  ring

theorem addMonths_spec (d : CivilDT) (n : Nat) (h : ValidDT d) (hn : 1 ≤ n) :
    toMin d + 1440 ≤ toMin (addMonths d n) ∧ ValidDT (addMonths d n) ∧
      (addMonths d n).hour = d.hour ∧ (addMonths d n).minute = d.minute := by
  obtain ⟨hm1, hm2, hd1, hd2⟩ := h
  have hM : 12 * (d.year + ((d.month - 1) + n) / 12) +
      (((d.month - 1) + n) % 12 + 1 - 1) = 12 * d.year + (d.month - 1) + n := by
    omega
  have e1 : monthStart d.year d.month =
      msd (12 * d.year + (d.month - 1)) := monthStart_eq_msd _ _ hm1 hm2
  have e2 : monthStart (d.year + ((d.month - 1) + n) / 12)
        (((d.month - 1) + n) % 12 + 1) =
      msd (12 * d.year + (d.month - 1) + n) := by
    have := monthStart_eq_msd (d.year + ((d.month - 1) + n) / 12)
      (((d.month - 1) + n) % 12 + 1) (by omega) (by omega)
    rw [this, hM]
  have step := msd_succ (12 * d.year + (d.month - 1))
  have e5 : (12 * d.year + (d.month - 1)) / 12 = d.year := by omega
  have e6 : (12 * d.year + (d.month - 1)) % 12 + 1 = d.month := by omega
  rw [e5, e6] at step
  have grow := msd_add (12 * d.year + (d.month - 1) + 1) (n - 1)
  have hgrow' : 12 * d.year + (d.month - 1) + 1 + (n - 1) =
      12 * d.year + (d.month - 1) + n := by omega
  rw [hgrow'] at grow
  have hdimpos : 28 ≤ daysInMonth (d.year + ((d.month - 1) + n) / 12)
      (((d.month - 1) + n) % 12 + 1) := daysInMonth_ge _ _
  refine ⟨?_, ?_, rfl, rfl⟩
  · show toMin d + 1440 ≤ toMin (addMonths d n)
    simp only [toMin, dayNumber, addMonths]
    rw [e1, e2]
    omega
  · simp only [ValidDT, addMonths]
    refine ⟨by omega, by omega, by omega, by omega⟩

theorem dayNumber_set_hour (d : CivilDT) (h : Nat) :
    dayNumber { d with hour := h } = dayNumber d := rfl

theorem addHours_spec (d : CivilDT) (n : Nat) (h : ValidDT d) :
    toMin (addHours d n) = toMin d + 60 * n ∧ ValidDT (addHours d n) := by
  obtain ⟨h1, h2, h3, h4⟩ := addDays_spec ((d.hour + n) / 24) d h
  constructor
  · show toMin { addDays d ((d.hour + n) / 24) with
        hour := (d.hour + n) % 24 } = toMin d + 60 * n
    simp only [toMin, dayNumber_set_hour]
    rw [h1, h4]
    omega
  · obtain ⟨v1, v2, v3, v4⟩ := h2
    exact ⟨v1, v2, v3, v4⟩

theorem addDaysZ_pos (c : CivilDT) (i : Int) (hi : 0 < i) (hv : ValidDT c) :
    toMin c < toMin (addDaysZ c i) ∧ ValidDT (addDaysZ c i) := by
  unfold addDaysZ
  rw [if_pos (le_of_lt hi)]
  have h1 := toMin_addDays c i.toNat hv
  have h2 := (addDays_spec i.toNat c hv).2.1
  have h3 : 1 ≤ i.toNat := by omega
  exact ⟨by omega, h2⟩

theorem addMonthsZ_pos (c : CivilDT) (i : Int) (hi : 0 < i) (hv : ValidDT c) :
    toMin c < toMin (addMonthsZ c i) ∧ ValidDT (addMonthsZ c i) := by
  unfold addMonthsZ
  rw [if_pos (le_of_lt hi)]
  have h3 : 1 ≤ i.toNat := by omega
  have h1 := addMonths_spec c i.toNat hv h3
  exact ⟨by omega, h1.2.1⟩

theorem addHoursZ_pos (c : CivilDT) (i : Int) (hi : 0 < i) (hv : ValidDT c) :
    toMin c < toMin (addHoursZ c i) ∧ ValidDT (addHoursZ c i) := by
  unfold addHoursZ
  rw [if_pos (le_of_lt hi)]
  have h3 : 1 ≤ i.toNat := by omega
  have h1 := addHours_spec c i.toNat hv
  exact ⟨by omega, h1.2⟩

/-- Every rule except a custom rule with a negative interval steps a valid
candidate strictly forward. -/
theorem stepsForward_of (rule : RecurrenceRule)
    (h : rule.type = RuleType.custom → ∀ i, rule.interval = some i → 0 ≤ i) :
    StepsForward rule := by
  intro c hc c' hstep
  unfold solarStep at hstep
  cases ht : rule.type <;> rw [ht] at hstep <;>
    simp only [Option.some.injEq, reduceCtorEq] at hstep
  case daily =>
    subst hstep
    exact addDaysZ_pos c 1 (by omega) hc
  case weekly =>
    subst hstep
    exact addDaysZ_pos c 7 (by omega) hc
  case monthly =>
    subst hstep
    exact addMonthsZ_pos c 1 (by omega) hc
  case yearlySolar =>
    subst hstep
    exact addMonthsZ_pos c 12 (by omega) hc
  case custom =>
    rcases hi : rule.interval with _ | i <;> rw [hi] at hstep
    · simp at hstep
    rcases hu : rule.unit with _ | u <;> rw [hu] at hstep
    · simp at hstep
    by_cases hiz : i = (0 : Int)
    · simp [hiz] at hstep
    · have hpos : 0 < i := lt_of_le_of_ne (h ht i hi) (Ne.symm hiz)
      simp only [hiz, ne_eq, not_false_eq_true, if_true, if_pos,
        Option.some.injEq] at hstep
      subst hstep
      cases u
      · exact addHoursZ_pos c i hpos hc
      · exact addDaysZ_pos c i hpos hc
      · exact addDaysZ_pos c (7 * i) (by omega) hc
      · exact addMonthsZ_pos c i hpos hc
      · exact addMonthsZ_pos c (12 * i) (by omega) hc

/-- The solar loop never returns anything earlier than `start`. -/
theorem solarLoop_ge (rule : RecurrenceRule) (start now : CivilDT)
    (hs : StepsForward rule) :
    ∀ fuel c, ValidDT c → toMin start ≤ toMin c →
      toMin start ≤ toMin (solarLoop rule start now fuel c) := by
  intro fuel
  induction fuel with
  | zero => intro c _ h2; exact h2
  | succ n ih =>
    intro c hv h2
    show toMin start ≤ toMin (solarLoop rule start now (n + 1) c)
    rw [solarLoop]
    by_cases hlt : toMin c < toMin now
    · rw [if_pos hlt]
      rcases hstep : solarStep rule c with _ | c'
      · exact le_rfl
      · obtain ⟨hlt', hv'⟩ := hs c hv c' hstep
        exact ih c' hv' (le_trans h2 (le_of_lt hlt'))
    · rw [if_neg hlt]
      exact h2

/-- The lunar trial loop returns the original start or something strictly
after `now`. -/
theorem lunarScan_cases (conv : LunarConv) (ld : LunarData)
    (s now : CivilDT) (sy : Nat) :
    ∀ l, lunarScan conv ld s now sy l = s ∨
      toMin now < toMin (lunarScan conv ld s now sy l) := by
  intro l
  induction l with
  | nil => left; rfl
  | cons i rest ih =>
    rw [lunarScan]
    rcases hconv : conv (sy + i) ld.month ld.day with _ | ⟨a, b, cc⟩
    · exact ih
    · show (if toMin now < toMin (⟨a, b, cc, s.hour, s.minute⟩ : CivilDT)
          then (⟨a, b, cc, s.hour, s.minute⟩ : CivilDT)
          else lunarScan conv ld s now sy rest) = s ∨
        toMin now < toMin
          (if toMin now < toMin (⟨a, b, cc, s.hour, s.minute⟩ : CivilDT)
          then (⟨a, b, cc, s.hour, s.minute⟩ : CivilDT)
          else lunarScan conv ld s now sy rest)
      by_cases hlt : toMin now < toMin (⟨a, b, cc, s.hour, s.minute⟩ : CivilDT)
      · rw [if_pos hlt]
        right
        exact hlt
      · rw [if_neg hlt]
        exact ih

theorem stepTotal_of_solarStepping (rule : RecurrenceRule)
    (h : SolarStepping rule) : StepTotal rule := by
  intro c
  rcases h with h | h | h | h | ⟨h, hu, i, hi, hipos⟩ <;>
    try simp [solarStep, h]
  obtain ⟨u, hu'⟩ := Option.isSome_iff_exists.mp hu
  simp [solarStep, h, hi, hu', show i ≠ 0 by omega]

theorem stepsForward_of_solarStepping (rule : RecurrenceRule)
    (h : SolarStepping rule) : StepsForward rule := by
  apply stepsForward_of
  intro hcust i' hi'
  rcases h with h | h | h | h | ⟨h, hu, i, hi, hipos⟩
  · rw [hcust] at h; cases h
  · rw [hcust] at h; cases h
  · rw [hcust] at h; cases h
  · rw [hcust] at h; cases h
  · rw [hi'] at hi
    injection hi with hii
    omega

theorem iterStep_succ (rule : RecurrenceRule) (n : Nat) (c : CivilDT) :
    iterStep rule (n + 1) c = iterStep rule n (stepF rule c) := rfl

/-- The solar loop returns the first iterate at or after `now`, whenever one
exists within the fuel bound. -/
theorem solarLoop_char (rule : RecurrenceRule) (start now : CivilDT)
    (ht : StepTotal rule) :
    ∀ fuel c, (∃ k, k ≤ fuel ∧ toMin now ≤ toMin (iterStep rule k c)) →
      ∃ k, k ≤ fuel ∧ solarLoop rule start now fuel c = iterStep rule k c ∧
        toMin now ≤ toMin (iterStep rule k c) ∧
        ∀ j < k, toMin (iterStep rule j c) < toMin now := by
  intro fuel
  induction fuel with
  | zero =>
    rintro c ⟨k, hk, hge⟩
    have hk0 : k = 0 := by omega
    subst hk0
    exact ⟨0, le_rfl, rfl, hge, by intro j hj; omega⟩
  | succ n ih =>
    rintro c ⟨k, hk, hge⟩
    by_cases hlt : toMin c < toMin now
    · obtain ⟨c', heq⟩ := Option.isSome_iff_exists.mp (ht c)
      have hF : stepF rule c = c' := by simp [stepF, heq]
      have hshift : ∀ m, iterStep rule (m + 1) c = iterStep rule m c' := by
        intro m
        rw [iterStep_succ, hF]
      have hk0 : k ≠ 0 := by
        intro h0
        subst h0
        exact absurd hge (by
          show ¬ toMin now ≤ toMin c
          omega)
      obtain ⟨k', rfl⟩ : ∃ k', k = k' + 1 := ⟨k - 1, by omega⟩
      rw [hshift k'] at hge
      obtain ⟨k'', hk2, heq2, hge2, hmin2⟩ := ih c' ⟨k', by omega, hge⟩
      refine ⟨k'' + 1, by omega, ?_, ?_, ?_⟩
      · rw [solarLoop, if_pos hlt, heq, hshift k'']
        exact heq2
      · rw [hshift k'']
        exact hge2
      · intro j hj
        cases j with
        | zero => exact hlt
        | succ j' =>
          rw [hshift j']
          exact hmin2 j' (by omega)
    · refine ⟨0, by omega, ?_, ?_, by intro j hj; omega⟩
      · rw [solarLoop, if_neg hlt]
        rfl
      · show toMin now ≤ toMin c
        omega

/-- Whatever happens, the result of the solar loop is some iterate of the
step — at most `fuel` period additions are performed — or the original
start (the in-loop exit for rules that cannot step). -/
theorem solarLoop_bounded (rule : RecurrenceRule) (start now : CivilDT) :
    ∀ fuel c, ∃ k, k ≤ fuel ∧
      (solarLoop rule start now fuel c = iterStep rule k c ∨
        solarLoop rule start now fuel c = start) := by
  intro fuel
  induction fuel with
  | zero => intro c; exact ⟨0, le_rfl, Or.inl rfl⟩
  | succ n ih =>
    intro c
    by_cases hlt : toMin c < toMin now
    · rcases hstep : solarStep rule c with _ | c'
      · refine ⟨0, by omega, Or.inr ?_⟩
        rw [solarLoop, if_pos hlt, hstep]
      · obtain ⟨k, hk, hor⟩ := ih c'
        have hF : stepF rule c = c' := by simp [stepF, hstep]
        refine ⟨k + 1, by omega, ?_⟩
        rw [solarLoop, if_pos hlt, hstep, iterStep_succ, hF]
        exact hor
    · refine ⟨0, by omega, Or.inl ?_⟩
      rw [solarLoop, if_neg hlt]
      rfl

/-- When no iterate within the fuel bound reaches `now`, the loop exhausts its
fuel and returns the last computed candidate. -/
theorem solarLoop_cap (rule : RecurrenceRule) (start now : CivilDT)
    (ht : StepTotal rule) :
    ∀ fuel c, (∀ j < fuel, toMin (iterStep rule j c) < toMin now) →
      solarLoop rule start now fuel c = iterStep rule fuel c := by
  intro fuel
  induction fuel with
  | zero => intro c _; rfl
  | succ n ih =>
    intro c hall
    have hlt : toMin c < toMin now := hall 0 (by omega)
    obtain ⟨c', heq⟩ := Option.isSome_iff_exists.mp (ht c)
    have hF : stepF rule c = c' := by simp [stepF, heq]
    rw [solarLoop, if_pos hlt, heq, iterStep_succ, hF]
    apply ih
    intro j hj
    have hmain := hall (j + 1) (by omega)
    rw [iterStep_succ, hF] at hmain
    exact hmain

/-- A trial run over any year-offset list where no existing candidate is
strictly after `now` falls through to the original start. -/
theorem lunarScan_miss (conv : LunarConv) (ld : LunarData)
    (s now : CivilDT) (sy : Nat) :
    ∀ l, (∀ j ∈ l, ∀ c', lunarTrial conv ld s sy j = some c' →
        toMin c' ≤ toMin now) →
      lunarScan conv ld s now sy l = s := by
  intro l
  induction l with
  | nil => intro _; rfl
  | cons j rest ih =>
    intro hmiss
    rw [lunarScan]
    rcases hx : conv (sy + j) ld.month ld.day with _ | ⟨a, b, cc⟩
    · exact ih fun j' hj' => hmiss j' (List.mem_cons_of_mem _ hj')
    · have hcand : toMin (⟨a, b, cc, s.hour, s.minute⟩ : CivilDT) ≤
          toMin now := by
        apply hmiss j (List.mem_cons_self _ _)
        simp [lunarTrial, hx]
      show (if toMin now < toMin (⟨a, b, cc, s.hour, s.minute⟩ : CivilDT)
          then (⟨a, b, cc, s.hour, s.minute⟩ : CivilDT)
          else lunarScan conv ld s now sy rest) = s
      rw [if_neg (by omega)]
      exact ih fun j' hj' => hmiss j' (List.mem_cons_of_mem _ hj')

/-- The trial run returns the candidate of the first trial index whose
candidate exists and is strictly after `now`, with all earlier existing
candidates at or before `now` (missing years are skipped silently). -/
theorem lunarScan_first (conv : LunarConv) (ld : LunarData)
    (s now : CivilDT) (sy : Nat) (c : CivilDT) :
    ∀ (l₁ : List Nat) (i : Nat) (l₂ : List Nat),
      (∀ j ∈ l₁, ∀ c', lunarTrial conv ld s sy j = some c' →
        toMin c' ≤ toMin now) →
      lunarTrial conv ld s sy i = some c → toMin now < toMin c →
      lunarScan conv ld s now sy (l₁ ++ i :: l₂) = c := by
  intro l₁
  induction l₁ with
  | nil =>
    intro i l₂ _ hhit hgt
    rw [List.nil_append, lunarScan]
    simp only [lunarTrial] at hhit
    rcases hx : conv (sy + i) ld.month ld.day with _ | ⟨a, b, cc⟩ <;>
      rw [hx] at hhit
    · simp at hhit
    · simp only [Option.map_some', Option.some.injEq] at hhit
      show (if toMin now < toMin (⟨a, b, cc, s.hour, s.minute⟩ : CivilDT)
          then (⟨a, b, cc, s.hour, s.minute⟩ : CivilDT)
          else lunarScan conv ld s now sy l₂) = c
      rw [hhit]
      exact if_pos hgt
  | cons j l₁' ih =>
    intro i l₂ hmiss hhit hgt
    rw [List.cons_append, lunarScan]
    rcases hx : conv (sy + j) ld.month ld.day with _ | ⟨a, b, cc⟩
    · exact ih i l₂ (fun j' hj' => hmiss j' (List.mem_cons_of_mem _ hj'))
        hhit hgt
    · have hcand : toMin (⟨a, b, cc, s.hour, s.minute⟩ : CivilDT) ≤
          toMin now := by
        apply hmiss j (List.mem_cons_self _ _)
        simp [lunarTrial, hx]
      show (if toMin now < toMin (⟨a, b, cc, s.hour, s.minute⟩ : CivilDT)
          then (⟨a, b, cc, s.hour, s.minute⟩ : CivilDT)
          else lunarScan conv ld s now sy (l₁' ++ i :: l₂)) = c
      rw [if_neg (by omega)]
      exact ih i l₂ (fun j' hj' => hmiss j' (List.mem_cons_of_mem _ hj'))
        hhit hgt

/-! ## Unfolding helpers for the rollover scheduler -/

theorem calcRec_eq_solarLoop (conv : LunarConv) (rule : RecurrenceRule)
    (start now : CivilDT)
    (h : rule.type ≠ RuleType.yearlyLunar ∨ rule.lunarData = Option.none) :
    calculateRecurringDate conv start rule now =
      solarLoop rule start now 2000 start := by
  unfold calculateRecurringDate
  cases htc : rule.type <;> try rfl
  rcases h with h | h
  · rw [htc] at h
    exact absurd rfl h
  · rw [h]

theorem calcRec_eq_lunar (conv : LunarConv) (rule : RecurrenceRule)
    (start now : CivilDT) (ld : LunarData)
    (h1 : rule.type = RuleType.yearlyLunar) (h2 : rule.lunarData = some ld) :
    calculateRecurringDate conv start rule now =
      calculateNextLunarDate conv ld start now := by
  unfold calculateRecurringDate
  rw [h1, h2]

theorem getNext_eq_calc (conv : LunarConv) (e : AppEvent) (now : CivilDT)
    (rule : RecurrenceRule) (hr : e.recurrenceRule = some rule)
    (ht : rule.type ≠ RuleType.none) (hlt : toMin e.startAt < toMin now) :
    getNextOccurrence conv e now =
      calculateRecurringDate conv e.startAt rule now := by
  unfold getNextOccurrence
  rw [hr]
  show (if rule.type = RuleType.none then e.startAt
      else if toMin e.startAt < toMin now then
        calculateRecurringDate conv e.startAt rule now
      else e.startAt) = calculateRecurringDate conv e.startAt rule now
  rw [if_neg ht, if_pos hlt]

theorem shouldUpdate_some_elim (conv : LunarConv) (e : AppEvent)
    (now c : CivilDT) (h : shouldUpdateRecurringEvent conv e now = some c) :
    ∃ rule, e.recurrenceRule = some rule ∧ rule.type ≠ RuleType.none ∧
      toMin e.startAt + 1 < toMin now ∧
      c = getNextOccurrence conv e now ∧ c ≠ e.startAt := by
  rcases hr : e.recurrenceRule with _ | rule
  · rw [shouldUpdateRecurringEvent, hr] at h
    exact Option.noConfusion h
  · rw [shouldUpdateRecurringEvent, hr] at h
    replace h : (if rule.type = RuleType.none then Option.none
        else if toMin e.startAt + 1 < toMin now then
          (if getNextOccurrence conv e now ≠ e.startAt
           then some (getNextOccurrence conv e now) else Option.none)
        else Option.none) = some c := h
    by_cases ht : rule.type = RuleType.none
    · rw [if_pos ht] at h
      exact Option.noConfusion h
    · rw [if_neg ht] at h
      by_cases hg : toMin e.startAt + 1 < toMin now
      · rw [if_pos hg] at h
        by_cases hne : getNextOccurrence conv e now = e.startAt
        · simp [hne] at h
        · simp only [ne_eq, hne, not_false_eq_true, if_true, if_pos,
            Option.some.injEq] at h
          refine ⟨rule, rfl, ht, hg, h.symm, ?_⟩
          rw [← h]
          exact hne
      · rw [if_neg hg] at h
        exact Option.noConfusion h

/-- C2, amended: a candidate produced by `shouldUpdateRecurringEvent` for an
event with a well-formed anchor date is never earlier than the current anchor,
provided the rule is not a custom rule with a negative interval. -/
theorem anchor_never_moves_backward
    (conv : LunarConv) (e : AppEvent) (now c : CivilDT)
    (hv : ValidDT e.startAt)
    (hnn : ∀ r, e.recurrenceRule = some r → r.type = RuleType.custom →
      ∀ i, r.interval = some i → 0 ≤ i)
    (h : shouldUpdateRecurringEvent conv e now = some c) :
    toMin e.startAt ≤ toMin c := by
  obtain ⟨rule, hr, ht, hg, hc, hne⟩ := shouldUpdate_some_elim conv e now c h
  subst hc
  rw [getNext_eq_calc conv e now rule hr ht (by omega)]
  by_cases hty : rule.type = RuleType.yearlyLunar
  · rcases hld : rule.lunarData with _ | ld
    · rw [calcRec_eq_solarLoop conv rule e.startAt now (Or.inr hld)]
      exact solarLoop_ge rule e.startAt now
        (stepsForward_of rule (fun hcust => by rw [hty] at hcust; cases hcust))
        2000 e.startAt hv le_rfl
    · rw [calcRec_eq_lunar conv rule e.startAt now ld hty hld]
      unfold calculateNextLunarDate
      rcases lunarScan_cases conv ld e.startAt now now.year (List.range 3)
        with heq | hgt
      · rw [heq]
      · omega
  · rw [calcRec_eq_solarLoop conv rule e.startAt now (Or.inl hty)]
    exact solarLoop_ge rule e.startAt now
      (stepsForward_of rule (fun hcust => hnn rule hr hcust)) 2000 e.startAt
      hv le_rfl

/-- C2 counterexample: for a custom rule with interval `-1` the scheduler
returns a candidate 2000 days **before** the current anchor. -/
theorem anchor_backward_cex :
    (shouldUpdateRecurringEvent convNone negIntervalEvent
        ⟨10, 1, 2, 9, 0⟩).isSome = true ∧
    toMin ((shouldUpdateRecurringEvent convNone negIntervalEvent
        ⟨10, 1, 2, 9, 0⟩).getD negIntervalEvent.startAt) <
      toMin negIntervalEvent.startAt := by
  constructor <;> decide

/-- Witness for the amended C2: the daily event anchored 2024-01-01T09:00,
advanced at reference 2024-01-03T10:00, yields the candidate 2024-01-04T09:00,
which is not earlier than the anchor. -/
theorem anchor_never_moves_backward_witness :
    toMin dailyJanEvent.startAt ≤ toMin ⟨2024, 1, 4, 9, 0⟩ := by
  refine anchor_never_moves_backward convNone dailyJanEvent
    ⟨2024, 1, 3, 10, 0⟩ ⟨2024, 1, 4, 9, 0⟩ (by decide) ?_ (by decide)
  intro r hr0 hcust i hi0
  injection hr0 with h'
  subst h'
  exact absurd hcust (by decide)

theorem shouldUpdate_none_of_guard (conv : LunarConv) (e : AppEvent)
    (now : CivilDT) (hg : ¬ (toMin e.startAt + 1 < toMin now)) :
    shouldUpdateRecurringEvent conv e now = Option.none := by
  rcases hr : e.recurrenceRule with _ | rule
  · rw [shouldUpdateRecurringEvent, hr]
  · rw [shouldUpdateRecurringEvent, hr]
    show (if rule.type = RuleType.none then Option.none
        else if toMin e.startAt + 1 < toMin now then
          (if getNextOccurrence conv e now ≠ e.startAt
           then some (getNextOccurrence conv e now) else Option.none)
        else Option.none) = Option.none
    by_cases ht : rule.type = RuleType.none
    · rw [if_pos ht]
    · rw [if_neg ht, if_neg hg]

/-- C1, amended: rollover is idempotent provided the returned candidate is at
or after the reference instant (always the case unless the 2000-iteration
safety cap truncated the search): once the candidate is applied as the new
anchor, re-invoking the scheduler returns none at the same reference instant,
and keeps returning none for every reference instant up to one minute past the
new anchor. -/
theorem rollover_idempotent (conv : LunarConv) (e : AppEvent) (now c : CivilDT)
    (h : shouldUpdateRecurringEvent conv e now = some c)
    (hcand : toMin now ≤ toMin c) :
    shouldUpdateRecurringEvent conv { e with startAt := c } now =
      Option.none ∧
    ∀ now', toMin now' ≤ toMin c + 1 →
      shouldUpdateRecurringEvent conv { e with startAt := c } now' =
        Option.none := by
  have key : ∀ now', toMin now' ≤ toMin c + 1 →
      shouldUpdateRecurringEvent conv { e with startAt := c } now' =
        Option.none := by
    intro now' hle
    apply shouldUpdate_none_of_guard
    show ¬ (toMin c + 1 < toMin now')
    omega
  exact ⟨key now (by omega), key⟩

/-- C1 counterexample: a daily event whose anchor lies more than 4000 days
before the reference.  The first call's candidate is truncated by the
2000-iteration cap; after applying it, a second call at the very same
reference instant again returns a candidate instead of none. -/
theorem rollover_idempotent_cex :
    (shouldUpdateRecurringEvent convNone farPastDaily
        ⟨12, 1, 1, 0, 0⟩).isSome = true ∧
    (shouldUpdateRecurringEvent convNone
        { farPastDaily with startAt :=
            (shouldUpdateRecurringEvent convNone farPastDaily
              ⟨12, 1, 1, 0, 0⟩).getD farPastDaily.startAt }
        ⟨12, 1, 1, 0, 0⟩).isSome = true := by
  constructor <;> decide

/-- Witness for the amended C1: applying the candidate 2024-01-04T09:00 of the
daily event and re-invoking at the same reference yields none. -/
theorem rollover_idempotent_witness :
    shouldUpdateRecurringEvent convNone
      { dailyJanEvent with startAt := ⟨2024, 1, 4, 9, 0⟩ }
      ⟨2024, 1, 3, 10, 0⟩ = Option.none :=
  (rollover_idempotent convNone dailyJanEvent ⟨2024, 1, 3, 10, 0⟩
    ⟨2024, 1, 4, 9, 0⟩ (by decide) (by decide)).1

theorem solarStepping_ne_lunar (rule : RecurrenceRule)
    (h : SolarStepping rule) : rule.type ≠ RuleType.yearlyLunar := by
  rcases h with h | h | h | h | ⟨h, _, _⟩ <;> rw [h] <;> decide

/-- C3, amended: for the four solar periods and custom rules with a positive
interval and unit, whenever some iterate of the period step reaches the
reference instant within the 2000-iteration cap, the resolver returns the
first such iterate — the earliest candidate obtained by repeatedly adding one
period to the anchor that is at or after the reference; and the two concrete
spec vectors (daily from 2024-03-01T09:00 resolved at 2024-03-05T10:00, and
custom 3-day from 2024-01-01T00:00 resolved at 2024-01-10T00:00) hold. -/
theorem solar_resolution :
    (∀ (conv : LunarConv) (rule : RecurrenceRule) (start now : CivilDT),
      SolarStepping rule →
      (∃ k, k ≤ 2000 ∧ toMin now ≤ toMin (iterStep rule k start)) →
      ∃ k, k ≤ 2000 ∧
        calculateRecurringDate conv start rule now = iterStep rule k start ∧
        toMin now ≤ toMin (iterStep rule k start) ∧
        ∀ j < k, toMin (iterStep rule j start) < toMin now) ∧
    calculateRecurringDate convNone ⟨2024, 3, 1, 9, 0⟩ dailyRule
      ⟨2024, 3, 5, 10, 0⟩ = ⟨2024, 3, 6, 9, 0⟩ ∧
    calculateRecurringDate convNone ⟨2024, 1, 1, 0, 0⟩ custom3Day
      ⟨2024, 1, 10, 0, 0⟩ = ⟨2024, 1, 10, 0, 0⟩ := by
  refine ⟨?_, by decide, by decide⟩
  intro conv rule start now hs hex
  rw [calcRec_eq_solarLoop conv rule start now
    (Or.inl (solarStepping_ne_lunar rule hs))]
  exact solarLoop_char rule start now (stepTotal_of_solarStepping rule hs)
    2000 start hex

/-- C3 counterexample: the daily rule with a reference more than 2000 days
after the anchor returns a candidate strictly before the reference — the
claimed "earliest candidate ≥ the reference instant" does not exist within
the iteration cap. -/
theorem solar_resolution_cex :
    toMin (⟨1, 1, 1, 0, 0⟩ : CivilDT) < toMin ⟨12, 1, 1, 0, 0⟩ ∧
    toMin (calculateRecurringDate convNone ⟨1, 1, 1, 0, 0⟩ dailyRule
      ⟨12, 1, 1, 0, 0⟩) < toMin ⟨12, 1, 1, 0, 0⟩ := by
  constructor <;> decide

/-- Witness for the amended C3 at the daily spec vector. -/
theorem solar_resolution_witness :
    ∃ k, k ≤ 2000 ∧
      calculateRecurringDate convNone ⟨2024, 3, 1, 9, 0⟩ dailyRule
        ⟨2024, 3, 5, 10, 0⟩ = iterStep dailyRule k ⟨2024, 3, 1, 9, 0⟩ ∧
      toMin ⟨2024, 3, 5, 10, 0⟩ ≤
        toMin (iterStep dailyRule k ⟨2024, 3, 1, 9, 0⟩) ∧
      ∀ j < k, toMin (iterStep dailyRule j ⟨2024, 3, 1, 9, 0⟩) <
        toMin ⟨2024, 3, 5, 10, 0⟩ :=
  solar_resolution.1 convNone dailyRule ⟨2024, 3, 1, 9, 0⟩ ⟨2024, 3, 5, 10, 0⟩
    (Or.inl (by decide)) ⟨5, by decide, by decide⟩

/-- C6, amended: a custom rule whose `interval` or `unit` is missing or whose
interval is zero (JS-falsy) makes the resolver return the anchor unchanged
and raise no exception; a custom rule with a *negative* interval instead
steps backwards until the iteration cap. -/
theorem custom_fallback (conv : LunarConv) (rule : RecurrenceRule)
    (start now : CivilDT) (hc : rule.type = RuleType.custom)
    (h : rule.interval = Option.none ∨ rule.interval = some 0 ∨
      rule.unit = Option.none) :
    calculateRecurringDate conv start rule now = start := by
  rw [calcRec_eq_solarLoop conv rule start now
    (Or.inl (by rw [hc]; decide))]
  show solarLoop rule start now (1999 + 1) start = start
  rw [solarLoop]
  by_cases hlt : toMin start < toMin now
  · rw [if_pos hlt]
    have hstep : solarStep rule start = Option.none := by
      rcases h with h | h | h
      · simp [solarStep, hc, h]
      · rcases hu : rule.unit with _ | u <;> simp [solarStep, hc, h, hu]
      · rcases hi : rule.interval with _ | i <;> simp [solarStep, hc, h, hi]
    rw [hstep]
  · rw [if_neg hlt]

/-- C6 counterexample: a custom rule with interval `-1` (non-positive) does
**not** leave the anchor unchanged — the resolver walks it 2000 days
backwards. -/
theorem custom_fallback_cex :
    calculateRecurringDate convNone ⟨10, 1, 1, 9, 0⟩ customNeg1Day
      ⟨10, 1, 2, 9, 0⟩ ≠ ⟨10, 1, 1, 9, 0⟩ := by
  decide

/-- Witness for the amended C6 at a zero-interval custom rule. -/
theorem custom_fallback_witness :
    calculateRecurringDate convNone ⟨2024, 5, 2, 8, 0⟩ custom0Day
      ⟨2024, 6, 1, 8, 0⟩ = ⟨2024, 5, 2, 8, 0⟩ :=
  custom_fallback convNone custom0Day ⟨2024, 5, 2, 8, 0⟩ ⟨2024, 6, 1, 8, 0⟩
    (by decide) (Or.inr (Or.inl rfl))

/-- C8: the solar stepping loop always terminates within 2000 period
additions — its result is some `k ≤ 2000`-fold iterate of the step (or the
anchor itself, for the in-loop exit arms) — and when every iterate within the
cap stays before the reference instant, it returns the 2000th iterate, the
last computed candidate, rather than hanging or raising. -/
theorem solar_cap (conv : LunarConv) (rule : RecurrenceRule)
    (start now : CivilDT)
    (hl : rule.type = RuleType.yearlyLunar → rule.lunarData = Option.none) :
    (∃ k, k ≤ 2000 ∧
      (calculateRecurringDate conv start rule now = iterStep rule k start ∨
        calculateRecurringDate conv start rule now = start)) ∧
    (StepTotal rule →
      (∀ j < 2000, toMin (iterStep rule j start) < toMin now) →
      calculateRecurringDate conv start rule now =
        iterStep rule 2000 start) := by
  have heq : calculateRecurringDate conv start rule now =
      solarLoop rule start now 2000 start := by
    by_cases hty : rule.type = RuleType.yearlyLunar
    · exact calcRec_eq_solarLoop conv rule start now (Or.inr (hl hty))
    · exact calcRec_eq_solarLoop conv rule start now (Or.inl hty)
  constructor
  · rw [heq]
    exact solarLoop_bounded rule start now 2000 start
  · intro ht hall
    rw [heq]
    exact solarLoop_cap rule start now ht 2000 start hall

theorem iterStep_daily_toMin :
    ∀ (j : Nat) (c : CivilDT), ValidDT c →
      toMin (iterStep dailyRule j c) = toMin c + 1440 * j ∧
        ValidDT (iterStep dailyRule j c) := by
  intro j
  induction j with
  | zero =>
    intro c hv
    exact ⟨by simp [iterStep], hv⟩
  | succ n ih =>
    intro c hv
    have hstep : stepF dailyRule c = nextDay c := rfl
    have hnd := nextDay_spec c hv
    rw [iterStep_succ, hstep]
    obtain ⟨h1, h2⟩ := ih (nextDay c) hnd.2.1
    refine ⟨?_, h2⟩
    rw [h1]
    have hto : toMin (nextDay c) = toMin c + 1440 := by
      obtain ⟨hd, hvv, hh, hm⟩ := hnd
      simp only [toMin, hd, hh, hm]
      ring
    omega

/-- Witness for C8: the daily rule anchored at year 0 with a reference twenty
years out exhausts the cap and returns the 2000th iterate. -/
theorem solar_cap_witness :
    calculateRecurringDate convNone ⟨0, 1, 1, 0, 0⟩ dailyRule
      ⟨20, 1, 1, 0, 0⟩ = iterStep dailyRule 2000 ⟨0, 1, 1, 0, 0⟩ := by
  refine (solar_cap convNone dailyRule ⟨0, 1, 1, 0, 0⟩ ⟨20, 1, 1, 0, 0⟩
    (by decide)).2 (fun c => rfl) ?_
  intro j hj
  have hiter := (iterStep_daily_toMin j ⟨0, 1, 1, 0, 0⟩ (by decide)).1
  rw [hiter]
  have h0 : toMin (⟨0, 1, 1, 0, 0⟩ : CivilDT) = 0 := by decide
  have h2 : toMin (⟨20, 1, 1, 0, 0⟩ : CivilDT) = 10519200 := by decide
  rw [h0, h2]
  omega

/-- C7, amended: `calculateNextLunarDate` tries the reference year and the
two following years; a trial year whose lunar (month, day) does not exist
(the conversion throws) is skipped without error; the result is the candidate
of the first trial year whose solar date (at the anchor's time-of-day) is
**strictly after** the reference instant — not "at or after" as claimed —
and when no trial year yields such a date the original anchor is returned
unchanged. -/
theorem lunar_resolution (conv : LunarConv) (ld : LunarData)
    (start now : CivilDT) :
    ((∀ i, i < 3 → ∀ c, lunarTrial conv ld start now.year i = some c →
        toMin c ≤ toMin now) →
      calculateNextLunarDate conv ld start now = start) ∧
    (∀ i, i < 3 → ∀ c, lunarTrial conv ld start now.year i = some c →
      toMin now < toMin c →
      (∀ j, j < i → ∀ c', lunarTrial conv ld start now.year j = some c' →
        toMin c' ≤ toMin now) →
      calculateNextLunarDate conv ld start now = c) := by
  constructor
  · intro hmiss
    unfold calculateNextLunarDate
    apply lunarScan_miss
    intro j hj c' hc'
    exact hmiss j (List.mem_range.mp hj) c' hc'
  · intro i hi c hhit hgt hmiss
    unfold calculateNextLunarDate
    obtain ⟨l₂, hdecomp⟩ : ∃ l₂, List.range 3 = List.range i ++ i :: l₂ := by
      interval_cases i
      · exact ⟨[1, 2], by decide⟩
      · exact ⟨[2], by decide⟩
      · exact ⟨[], by decide⟩
    rw [hdecomp]
    apply lunarScan_first
    · intro j hj c' hc'
      exact hmiss j (List.mem_range.mp hj) c' hc'
    · exact hhit
    · exact hgt

/-- C7 counterexample: with a conversion that maps every trial year to
March 15, an anchor time-of-day of 08:00, and reference 2025-03-15T08:00, the
reference year's candidate is exactly the reference instant — the first solar
date "≥ the reference" — yet the resolver skips it (strict `>`) and returns
the following year's date. -/
theorem lunar_resolution_cex :
    lunarTrial convMar15 ⟨1, 1⟩ ⟨2020, 3, 15, 8, 0⟩
      (⟨2025, 3, 15, 8, 0⟩ : CivilDT).year 0 = some ⟨2025, 3, 15, 8, 0⟩ ∧
    calculateNextLunarDate convMar15 ⟨1, 1⟩ ⟨2020, 3, 15, 8, 0⟩
      ⟨2025, 3, 15, 8, 0⟩ = ⟨2026, 3, 15, 8, 0⟩ := by
  constructor <;> decide

/-- Witness for the amended C7: a conversion failing in all three trial years
leaves the anchor unchanged. -/
theorem lunar_resolution_witness :
    calculateNextLunarDate convNone ⟨1, 1⟩ ⟨2020, 3, 15, 8, 0⟩
      ⟨2025, 6, 1, 0, 0⟩ = ⟨2020, 3, 15, 8, 0⟩ := by
  apply (lunar_resolution convNone ⟨1, 1⟩ ⟨2020, 3, 15, 8, 0⟩
    ⟨2025, 6, 1, 0, 0⟩).1
  intro i hi c hc
  simp [lunarTrial, convNone] at hc

/-! ## Dedup and aggregation lemmas for the cron scan -/

theorem pushDedup_nodup (acc : List Label) (lab : Label) (h : acc.Nodup) :
    (pushDedup acc lab).Nodup := by
  unfold pushDedup
  split
  · exact h
  · rename_i hmem
    rw [List.nodup_append]
    refine ⟨h, List.nodup_singleton _, ?_⟩
    intro x hx hx'
    simp only [List.mem_singleton] at hx'
    subst hx'
    exact hmem hx

theorem pushDedup_mem (acc : List Label) (lab x : Label) :
    x ∈ pushDedup acc lab ↔ x ∈ acc ∨ x = lab := by
  unfold pushDedup
  split
  · rename_i hmem
    constructor
    · exact Or.inl
    · rintro (h | rfl)
      · exact h
      · exact hmem
  · simp [List.mem_append]

theorem foldl_pushDedup_nodup :
    ∀ (l acc : List Label), acc.Nodup → (l.foldl pushDedup acc).Nodup := by
  intro l
  induction l with
  | nil => intro acc h; exact h
  | cons a t ih => intro acc h; exact ih _ (pushDedup_nodup acc a h)

theorem foldl_pushDedup_mem :
    ∀ (l acc : List Label) (x : Label),
      x ∈ l.foldl pushDedup acc ↔ x ∈ acc ∨ x ∈ l := by
  intro l
  induction l with
  | nil => intro acc x; simp
  | cons a t ih =>
    intro acc x
    show x ∈ t.foldl pushDedup (pushDedup acc a) ↔ _
    rw [ih, pushDedup_mem, List.mem_cons]
    tauto

theorem processEvent_fst_del (S E : Int) (now : CivilDT)
    (acc : (String → List Label) × List String) (e : StoredEvent)
    (h : cronShouldDelete now e = true) :
    (processEvent S E now acc e).1 = acc.1 := by
  unfold processEvent
  rw [if_pos h]

theorem processEvent_fst_nodev (S E : Int) (now : CivilDT)
    (acc : (String → List Label) × List String) (e : StoredEvent)
    (h1 : cronShouldDelete now e = false) (h2 : e.deviceId = Option.none) :
    (processEvent S E now acc e).1 = acc.1 := by
  unfold processEvent
  rw [if_neg (by rw [h1]; decide), h2]

theorem processEvent_fst_dev (S E : Int) (now : CivilDT)
    (acc : (String → List Label) × List String) (e : StoredEvent)
    (dev d : String) (h1 : cronShouldDelete now e = false)
    (h2 : e.deviceId = some dev) :
    (processEvent S E now acc e).1 d =
      if d = dev then (eventOffsetsLabels S E e).foldl pushDedup (acc.1 d)
      else acc.1 d := by
  unfold processEvent
  rw [if_neg (by rw [h1]; decide), h2]

theorem processEvent_snd (S E : Int) (now : CivilDT)
    (acc : (String → List Label) × List String) (e : StoredEvent) :
    (processEvent S E now acc e).2 =
      if cronShouldDelete now e then acc.2 ++ [e.id] else acc.2 := by
  unfold processEvent
  split
  · rfl
  · rcases hdev : e.deviceId with _ | dev <;> rfl

theorem runCron_fst_nodup_aux (S E : Int) (now : CivilDT) :
    ∀ (events : List StoredEvent) (acc : (String → List Label) × List String)
      (d : String), (acc.1 d).Nodup →
      ((events.foldl (processEvent S E now) acc).1 d).Nodup := by
  intro events
  induction events with
  | nil => intro acc d h; exact h
  | cons e es ih =>
    intro acc d h
    rw [List.foldl_cons]
    apply ih
    rcases hdel : cronShouldDelete now e with _ | _
    · rcases hdev : e.deviceId with _ | dev
      · rw [processEvent_fst_nodev S E now acc e hdel hdev]
        exact h
      · rw [processEvent_fst_dev S E now acc e dev d hdel hdev]
        split
        · exact foldl_pushDedup_nodup _ _ h
        · exact h
    · rw [processEvent_fst_del S E now acc e hdel]
      exact h

theorem runCron_fst_mem_aux (S E : Int) (now : CivilDT) :
    ∀ (events : List StoredEvent) (acc : (String → List Label) × List String)
      (d : String) (lab : Label),
      lab ∈ (events.foldl (processEvent S E now) acc).1 d ↔
        lab ∈ acc.1 d ∨ ∃ e, e ∈ events ∧ cronShouldDelete now e = false ∧
          e.deviceId = some d ∧ lab ∈ eventOffsetsLabels S E e := by
  intro events
  induction events with
  | nil => intro acc d lab; simp
  | cons e es ih =>
    intro acc d lab
    rw [List.foldl_cons, ih]
    rcases hdel : cronShouldDelete now e with _ | _
    · rcases hdev : e.deviceId with _ | dev
      · rw [processEvent_fst_nodev S E now acc e hdel hdev]
        constructor
        · rintro (h | ⟨e', he', h2, h3, h4⟩)
          · exact Or.inl h
          · exact Or.inr ⟨e', List.mem_cons_of_mem _ he', h2, h3, h4⟩
        · rintro (h | ⟨e', he', h2, h3, h4⟩)
          · exact Or.inl h
          · rcases List.mem_cons.mp he' with rfl | he''
            · rw [hdev] at h3
              cases h3
            · exact Or.inr ⟨e', he'', h2, h3, h4⟩
      · rw [processEvent_fst_dev S E now acc e dev d hdel hdev]
        by_cases hd : d = dev
        · subst hd
          rw [if_pos rfl, foldl_pushDedup_mem]
          constructor
          · rintro ((h | h) | ⟨e', he', h2, h3, h4⟩)
            · exact Or.inl h
            · exact Or.inr ⟨e, List.mem_cons_self _ _, hdel, hdev, h⟩
            · exact Or.inr ⟨e', List.mem_cons_of_mem _ he', h2, h3, h4⟩
          · rintro (h | ⟨e', he', h2, h3, h4⟩)
            · exact Or.inl (Or.inl h)
            · rcases List.mem_cons.mp he' with rfl | he''
              · exact Or.inl (Or.inr h4)
              · exact Or.inr ⟨e', he'', h2, h3, h4⟩
        · rw [if_neg hd]
          constructor
          · rintro (h | ⟨e', he', h2, h3, h4⟩)
            · exact Or.inl h
            · exact Or.inr ⟨e', List.mem_cons_of_mem _ he', h2, h3, h4⟩
          · rintro (h | ⟨e', he', h2, h3, h4⟩)
            · exact Or.inl h
            · rcases List.mem_cons.mp he' with rfl | he''
              · rw [hdev] at h3
                injection h3 with h3'
                exact absurd h3'.symm hd
              · exact Or.inr ⟨e', he'', h2, h3, h4⟩
    · rw [processEvent_fst_del S E now acc e hdel]
      constructor
      · rintro (h | ⟨e', he', h2, h3, h4⟩)
        · exact Or.inl h
        · exact Or.inr ⟨e', List.mem_cons_of_mem _ he', h2, h3, h4⟩
      · rintro (h | ⟨e', he', h2, h3, h4⟩)
        · exact Or.inl h
        · rcases List.mem_cons.mp he' with rfl | he''
          · rw [hdel] at h2
            cases h2
          · exact Or.inr ⟨e', he'', h2, h3, h4⟩

theorem runCron_snd_aux (S E : Int) (now : CivilDT) :
    ∀ (events : List StoredEvent) (acc : (String → List Label) × List String),
      (events.foldl (processEvent S E now) acc).2 =
        acc.2 ++ (events.filter (cronShouldDelete now)).map
          (fun e => e.id) := by
  intro events
  induction events with
  | nil => intro acc; simp
  | cons e es ih =>
    intro acc
    rw [List.foldl_cons, ih, processEvent_snd]
    rcases hdel : cronShouldDelete now e with _ | _ <;>
      simp [List.filter_cons, hdel]

theorem reapQualifies_iff (grace : Nat) (now : CivilDT) (e : StoredEvent) :
    reapQualifies grace now e = true ↔
      isOneTime e.recurrenceRule = true ∧
        ∃ t, e.nextAlertAt = some t ∧ toMin t + grace < toMin now := by
  unfold reapQualifies
  rcases h : e.nextAlertAt with _ | t <;> simp [h]

theorem cleanupQualifies_eq_reap (now : CivilDT) (e : StoredEvent) :
    cleanupQualifies now e = reapQualifies 1 now e := rfl

theorem cleanup_eq_reap (now : CivilDT) (events : List StoredEvent) :
    cleanupPastEvents now events = reap 1 now events := rfl

theorem cronShouldDelete_eq_reap (now : CivilDT) (e : StoredEvent) :
    cronShouldDelete now e = reapQualifies 120 now e := by
  unfold cronShouldDelete reapQualifies
  rcases h : e.nextAlertAt with _ | t
  · rfl
  · congr 1
    exact decide_eq_decide.mpr (by omega)

/-- C5: the expiry reaper — with the grace period as a parameter — deletes
exactly the rule-`none` events whose parsed `nextAlertAt` plus the grace is
before the reference instant; an event with any other rule never qualifies;
and the two drivers are instances of the one implementation: the client's
`cleanupPastEvents` is the reaper at grace 1 minute, the cron handler's
delete list is the reaper at grace 120 minutes. -/
theorem expiry_reaper :
    ∀ (grace : Nat) (now : CivilDT) (events : List StoredEvent),
      (∀ i, i ∈ reap grace now events ↔
        ∃ e, e ∈ events ∧ e.id = i ∧ isOneTime e.recurrenceRule = true ∧
          ∃ t, e.nextAlertAt = some t ∧ toMin t + grace < toMin now) ∧
      (∀ e, e ∈ events → isOneTime e.recurrenceRule = false →
        reapQualifies grace now e = false) ∧
      cleanupPastEvents now events = reap 1 now events ∧
      (∀ S E : Int, (runCron S E now events).2 = reap 120 now events) := by
  intro grace now events
  refine ⟨?_, ?_, cleanup_eq_reap now events, ?_⟩
  · intro i
    unfold reap
    rw [List.mem_map]
    constructor
    · rintro ⟨e, he, rfl⟩
      rw [List.mem_filter] at he
      obtain ⟨h1, h2⟩ := he
      obtain ⟨h3, t, h4, h5⟩ := (reapQualifies_iff grace now e).mp h2
      exact ⟨e, h1, rfl, h3, t, h4, h5⟩
    · rintro ⟨e, he, rfl, h3, t, h4, h5⟩
      exact ⟨e, List.mem_filter.mpr
        ⟨he, (reapQualifies_iff grace now e).mpr ⟨h3, t, h4, h5⟩⟩, rfl⟩
  · intro e he hone
    unfold reapQualifies
    rw [hone]
    rfl
  · intro S E
    unfold runCron
    rw [runCron_snd_aux]
    rw [List.nil_append]
    unfold reap
    rw [show cronShouldDelete now = reapQualifies 120 now from
      funext fun e => cronShouldDelete_eq_reap now e]

/-- Witness for C5: with grace 120 minutes and reference three hours past the
stored alert, the parsed one-time event's id is reaped. -/
theorem expiry_reaper_witness :
    "ok" ∈ reap 120 ⟨2024, 1, 1, 12, 0⟩ [okStoredEvent, badStoredEvent] :=
  ((expiry_reaper 120 ⟨2024, 1, 1, 12, 0⟩
    [okStoredEvent, badStoredEvent]).1 "ok").mpr
    ⟨okStoredEvent, by decide, rfl, by decide, ⟨2024, 1, 1, 9, 0⟩, rfl,
      by decide⟩

/-- C10 (implicit): `cleanupPastEvents` is total on malformed timestamps —
every deleted id comes from an event whose `nextAlertAt` parsed, and an event
whose timestamp is invalid (`isValid` false) never satisfies the deletion
test; the guard neither deletes nor raises. -/
theorem cleanup_skips_unparseable :
    ∀ (now : CivilDT) (events : List StoredEvent),
      (∀ i, i ∈ cleanupPastEvents now events →
        ∃ e, e ∈ events ∧ e.id = i ∧ ∃ t, e.nextAlertAt = some t) ∧
      (∀ e, e.nextAlertAt = Option.none → cleanupQualifies now e = false) := by
  intro now events
  constructor
  · intro i hi
    unfold cleanupPastEvents at hi
    rw [List.mem_map] at hi
    obtain ⟨e, he, rfl⟩ := hi
    rw [List.mem_filter] at he
    obtain ⟨h1, h2⟩ := he
    rcases h : e.nextAlertAt with _ | t
    · rw [cleanupQualifies, h] at h2
      simp at h2
    · exact ⟨e, h1, rfl, t, h⟩
  · intro e h
    rw [cleanupQualifies, h]
    simp

/-- Witness for C10: in a two-event list, the stale parsed event is deleted
while the event with an unparseable timestamp is not; the membership
direction recovers the parsed timestamp of the deleted id. -/
theorem cleanup_skips_unparseable_witness :
    ∃ e, e ∈ [okStoredEvent, badStoredEvent] ∧ e.id = "ok" ∧
      ∃ t, e.nextAlertAt = some t :=
  (cleanup_skips_unparseable ⟨2024, 1, 1, 9, 2⟩
    [okStoredEvent, badStoredEvent]).1 "ok" (by decide)

theorem offsetDue_iff (S E : Int) (base : CivilDT) (m : Nat) :
    offsetDue S E base m = true ↔
      S ≤ (toMin base : Int) - m ∧ (toMin base : Int) - m < E + 1 := by
  unfold offsetDue
  simp only [Bool.and_eq_true, decide_eq_true_eq]
  constructor <;> rintro ⟨h1, h2⟩ <;> exact ⟨h1, by omega⟩

theorem dueOffsets_iff (S E : Int) (base : CivilDT) (rems : List Nat)
    (m : Nat) :
    m ∈ dueOffsets S E base rems ↔
      m ∈ rems ∧ S ≤ (toMin base : Int) - m ∧
        (toMin base : Int) - m < E + 1 := by
  unfold dueOffsets
  rw [List.mem_filter, offsetDue_iff]

/-- C4: reminder matching over the cron evaluation window.  The source tests
`targetStart ≤ alertTime ∧ alertTime ≤ targetEnd` with `targetEnd` the last
representable instant of the day (`endOf('day')`), i.e. over instants the
half-open window `[targetStart, targetEnd + 1)`: an offset is matched exactly
when `alertInstant = occurrenceInstant - offsetMinutes` lies in that half-open
window, an alert instant equal to the window's (exclusive) end is excluded,
and within one event offsets producing identical formatted labels are
reported only once. -/
theorem reminder_window :
    ∀ (S E : Int) (base : CivilDT) (rems : List Nat) (m : Nat)
      (e : StoredEvent),
      (m ∈ dueOffsets S E base rems ↔
        m ∈ rems ∧ S ≤ (toMin base : Int) - m ∧
          (toMin base : Int) - m < E + 1) ∧
      ((toMin base : Int) - m = E + 1 → m ∉ dueOffsets S E base rems) ∧
      (e.nextAlertAt = some base → remindersOf e = rems →
        ∀ lab, lab ∈ (eventOffsetsLabels S E e).foldl pushDedup [] ↔
          ∃ m', m' ∈ dueOffsets S E base rems ∧
            lab = formatLabel base e.title m') ∧
      ((eventOffsetsLabels S E e).foldl pushDedup []).Nodup := by
  intro S E base rems m e
  refine ⟨dueOffsets_iff S E base rems m, ?_, ?_, ?_⟩
  · intro heq hmem
    obtain ⟨_, _, h3⟩ := (dueOffsets_iff S E base rems m).mp hmem
    omega
  · intro hbase hrems lab
    rw [foldl_pushDedup_mem]
    have hlabels : eventOffsetsLabels S E e =
        rems.filterMap fun m' =>
          if offsetDue S E base m' then some (formatLabel base e.title m')
          else Option.none := by
      unfold eventOffsetsLabels
      rw [hbase, ← hrems]
    rw [hlabels, List.mem_filterMap]
    simp only [List.not_mem_nil, false_or]
    constructor
    · rintro ⟨m', hm', hf⟩
      by_cases hdue : offsetDue S E base m' = true
      · rw [if_pos hdue] at hf
        injection hf with hf'
        exact ⟨m', List.mem_filter.mpr ⟨hm', hdue⟩, hf'.symm⟩
      · rw [if_neg hdue] at hf
        cases hf
    · rintro ⟨m', hm', rfl⟩
      rw [dueOffsets, List.mem_filter] at hm'
      exact ⟨m', hm'.1, by rw [if_pos hm'.2]⟩
  · exact foldl_pushDedup_nodup _ _ List.nodup_nil

/-- Witness for C4 at a concrete event: the offset 5 whose alert instant lies
inside the window is matched. -/
theorem reminder_window_witness :
    5 ∈ dueOffsets 0 2000000000 ⟨2024, 1, 1, 9, 0⟩ [5, 999999999] :=
  ((reminder_window 0 2000000000 ⟨2024, 1, 1, 9, 0⟩ [5, 999999999] 5
    okStoredEvent).1).mpr ⟨by decide, by decide, by decide⟩

/-- C9: digest aggregation.  Per recipient (device), the accumulated alert
list contains exactly the labels of that device's surviving events whose
offsets are due, identical formatted labels appearing exactly once
(`List.Nodup`); the digest payload built from that list carries its length as
the title count (the number of distinct labels), previews the first four
lines, and carries the `...and N more` overflow — with `N` the total minus
four — exactly when more than four distinct labels exist. -/
theorem digest_aggregation :
    ∀ (S E : Int) (now : CivilDT) (events : List StoredEvent) (dev : String),
      ((runCron S E now events).1 dev).Nodup ∧
      (∀ lab, lab ∈ (runCron S E now events).1 dev ↔
        ∃ e, e ∈ events ∧ cronShouldDelete now e = false ∧
          e.deviceId = some dev ∧ lab ∈ eventOffsetsLabels S E e) ∧
      (mkDigest ((runCron S E now events).1 dev)).titleCount =
        ((runCron S E now events).1 dev).length ∧
      (mkDigest ((runCron S E now events).1 dev)).preview =
        ((runCron S E now events).1 dev).take 4 ∧
      ((mkDigest ((runCron S E now events).1 dev)).overflow ≠ Option.none ↔
        4 < ((runCron S E now events).1 dev).length) ∧
      (∀ nn, (mkDigest ((runCron S E now events).1 dev)).overflow = some nn →
        nn = ((runCron S E now events).1 dev).length - 4) := by
  intro S E now events dev
  refine ⟨?_, ?_, rfl, rfl, ?_, ?_⟩
  · exact runCron_fst_nodup_aux S E now events (fun _ => [], []) dev
      List.nodup_nil
  · intro lab
    unfold runCron
    rw [runCron_fst_mem_aux]
    simp
  · show (if 4 < ((runCron S E now events).1 dev).length
        then some (((runCron S E now events).1 dev).length - 4)
        else Option.none) ≠ Option.none ↔ _
    by_cases h4 : 4 < ((runCron S E now events).1 dev).length
    · rw [if_pos h4]
      simp [h4]
    · rw [if_neg h4]
      simp [h4]
  · intro nn h
    replace h : (if 4 < ((runCron S E now events).1 dev).length
        then some (((runCron S E now events).1 dev).length - 4)
        else Option.none) = some nn := h
    by_cases h4 : 4 < ((runCron S E now events).1 dev).length
    · rw [if_pos h4] at h
      injection h with h'
      exact h'.symm
    · rw [if_neg h4] at h
      cases h

/-- Witness for C9: a recurring event of device "dev" with an at-time
reminder due in the window contributes its formatted label to that device's
digest list. -/
theorem digest_aggregation_witness :
    Label.atTime 9 0 "T" ∈
      (runCron 0 2000000000 ⟨2024, 1, 1, 8, 0⟩ [devStoredEvent]).1 "dev" :=
  ((digest_aggregation 0 2000000000 ⟨2024, 1, 1, 8, 0⟩ [devStoredEvent]
    "dev").2.1 (Label.atTime 9 0 "T")).mpr
    ⟨devStoredEvent, by decide, by decide, by decide, by decide⟩

end Lunara
